import Mathlib

/-!
# Verification of the `subtle` constant-time codec library

Shallow embedding of the constant-time comparison primitives, the
constant-time hexadecimal codec and the constant-time Base64 codec
of the `subtle` Go library, together with theorems settling the
specification claims.

Machine integers are modelled as `Nat` with explicit reduction
`% 2^64` (Go `uint`), `% 2^32` (Go `uint32`) and `% 256` (Go `byte`)
at every point where the Go code can wrap.  Byte buffers are
`List Nat`; the predicate `Bytes` states every element is below 256.
-/

set_option maxRecDepth 4000

namespace Subtle

/-- Word size of Go `uint`/`uint64`. -/
def W64 : Nat := 2 ^ 64

/-- Word size of Go `uint32`. -/
def W32 : Nat := 2 ^ 32

/-- Go 64-bit unsigned subtraction `a - b` (two's-complement wraparound). -/
def sub64 (a b : Nat) : Nat := (a % W64 + (W64 - b % W64)) % W64

/-- Go 64-bit unsigned addition `a + b`. -/
def add64 (a b : Nat) : Nat := (a + b) % W64

/-- Go 32-bit unsigned subtraction. -/
def sub32 (a b : Nat) : Nat := (a % W32 + (W32 - b % W32)) % W32

/-- Go 32-bit unsigned addition. -/
def add32 (a b : Nat) : Nat := (a + b) % W32

/-- All elements of the list are bytes. -/
def Bytes (l : List Nat) : Prop := ∀ b ∈ l, b < 256

/-- Contract of `crypto/subtle.ConstantTimeByteEq`: 1 if `x == y`, else 0. -/
def ConstantTimeByteEq (x y : Nat) : Nat := if x = y then 1 else 0

/-- Contract of `crypto/subtle.ConstantTimeSelect`: `x` if `v == 1`, `y` if
`v == 0` (behaviour for other `v` is unspecified in Go; we pick `y`). -/
def ConstantTimeSelect (v x y : Nat) : Nat := if v = 1 then x else y

/-- Contract of `crypto/subtle.ConstantTimeLessOrEq`: 1 if `x <= y`, else 0. -/
def ConstantTimeLessOrEq (x y : Nat) : Nat := if x ≤ y then 1 else 0

/-- `ConstantTimeByteLessOrEq` from the repository: delegates to
`ConstantTimeLessOrEq`. -/
def ConstantTimeByteLessOrEq (x y : Nat) : Nat := ConstantTimeLessOrEq x y

/-- `ConstantTimeByteGreater` from the repository. -/
def ConstantTimeByteGreater (x y : Nat) : Nat := ConstantTimeByteLessOrEq x y ^^^ 1

/-- Loop body of `ConstantTimeBigEndianLessOrEq`, walking the zipped byte
pairs left to right while maintaining the `neq` and `gt` flags. -/
def beLessOrEqLoop : List (Nat × Nat) → Nat → Nat → Nat
  | [], _, gt => gt ^^^ 1
  | (a, b) :: rest, neq, gt =>
      let gt := gt ||| ConstantTimeSelect neq 0 (ConstantTimeByteGreater a b)
      let neq := neq ||| ConstantTimeSelect gt 0 (ConstantTimeByteEq a b ^^^ 1)
      beLessOrEqLoop rest neq gt

/-- `ConstantTimeBigEndianLessOrEq` from the repository; `none` models the
panic on mismatched lengths. -/
def ConstantTimeBigEndianLessOrEq (x y : List Nat) : Option Nat :=
  if x.length = y.length then some (beLessOrEqLoop (x.zip y) 0 0) else none

/-- Big-endian integer value of a byte string. -/
def beNat : List Nat → Nat
  | [] => 0
  | b :: rest => b * 256 ^ rest.length + beNat rest

end Subtle

namespace Hex

open Subtle

/-- The branchless per-character "is this an invalid hex byte" computation
from the decode loop of `hex/constant_time.go`
(1 if invalid, 0 if a valid hex character). -/
def hexBad (c : Nat) : Nat :=
  let num := c ^^^ 48
  let num0 := sub64 num 10 >>> 8
  let alpha := sub64 (c &&& (W64 - 33)) 55
  let alpha0 := (sub64 alpha 10 ^^^ sub64 alpha 16) >>> 8
  ConstantTimeByteEq ((num0 ||| alpha0) % 256) 0

/-- The branchless per-character hex value computation from the decode loop
(`val := byte(num0&num | alpha0&alpha)`). -/
def hexVal (c : Nat) : Nat :=
  let num := c ^^^ 48
  let num0 := sub64 num 10 >>> 8
  let alpha := sub64 (c &&& (W64 - 33)) 55
  let alpha0 := (sub64 alpha 10 ^^^ sub64 alpha 16) >>> 8
  ((num0 &&& num) ||| (alpha0 &&& alpha)) % 256

/-- `validHexChar` from `hex/constant_time.go`. -/
def validHexChar (c : Nat) : Bool :=
  let num := c ^^^ 48
  let num0 := sub64 num 10 >>> 8
  let alpha := sub64 (c &&& (W64 - 33)) 55
  let alpha0 := (sub64 alpha 10 ^^^ sub64 alpha 16) >>> 8
  ConstantTimeByteEq ((num0 ||| alpha0) % 256) 0 == 0

/-- The claim's notion of a hex digit: one of `0`-`9`, `A`-`F`, `a`-`f`. -/
def isHexDigit (c : Nat) : Bool :=
  (48 ≤ c && c ≤ 57) || (65 ≤ c && c ≤ 70) || (97 ≤ c && c ≤ 102)

/-- Index of the first byte that is not a hex digit, if any. -/
def firstNonHex : List Nat → Option Nat
  | [] => none
  | c :: rest => if isHexDigit c then (firstNonHex rest).map (· + 1) else some 0

/-- State threaded through the hex decode loop: the `failed` flag, the
recorded `badIdx`/`badChar`, the nibble accumulator `acc`, the destination
index `i`, and (as model of the destination buffer) the bytes written. -/
structure St where
  failed : Nat
  badIdx : Nat
  badChar : Nat
  acc : Nat
  i : Nat
  out : List Nat

/-- One iteration of the decode loop of `hex/constant_time.go` on source
byte `c` at source index `j`. -/
def step (j c : Nat) (st : St) : St :=
  let bad := hexBad c
  let badIdx := ConstantTimeSelect st.failed st.badIdx
    (ConstantTimeSelect bad st.i st.badIdx)
  let badChar := ConstantTimeSelect st.failed st.badChar
    (ConstantTimeSelect bad c st.badChar)
  let failed := st.failed ||| bad
  let val := hexVal c
  if j % 2 = 0 then
    { st with
      failed := failed
      badIdx := badIdx
      badChar := badChar
      acc := (val * 16) % 256 }
  else
    { failed := failed
      badIdx := badIdx
      badChar := badChar
      acc := st.acc
      i := st.i + 1
      out := st.out ++ [st.acc ||| val] }

/-- The decode loop, reading the source bytes one at a time. -/
def loop : List Nat → Nat → St → St
  | [], _, st => st
  | c :: rest, j, st => loop rest (j + 1) (step j c st)

/-- Errors of the hex decoder. -/
inductive Err where
  | invalidByte (c : Nat)
  | errLength
deriving DecidableEq

/-- Result of `Decode`: returned count, written destination bytes, error. -/
structure Res where
  n : Nat
  out : List Nat
  err : Option Err
deriving DecidableEq

/-- `Decode` from `hex/constant_time.go`, decoding into a fresh destination
buffer. -/
def Decode (src : List Nat) : Res :=
  let st := loop src 0 ⟨0, 0, 0, 0, 0, []⟩
  if st.failed ≠ 0 then ⟨st.badIdx, st.out, some (Err.invalidByte st.badChar)⟩
  else if src.length % 2 = 1 then ⟨st.i, st.out, some Err.errLength⟩
  else ⟨st.i, st.out, none⟩

/-- The decode loop run on an aliased buffer: `DecodeString` passes the same
byte slice as both source and destination, so each write lands in the buffer
the remaining reads come from. -/
def loopIP (buf : List Nat) (j : Nat) (st : St) : St × List Nat :=
  if h : j < buf.length then
    loopIP
      (if j % 2 = 0 then buf
       else buf.set st.i (st.acc ||| hexVal (buf.getD j 0)))
      (j + 1) (step j (buf.getD j 0) st)
  else (st, buf)
termination_by buf.length - j
decreasing_by
  split
  · omega
  · simp only [List.length_set]; omega

/-- `DecodeString` from `hex/hex.go`: decodes in place (source and
destination aliased) and returns the first `n` buffer bytes and the error. -/
def DecodeString (s : List Nat) : List Nat × Option Err :=
  let r := loopIP s 0 ⟨0, 0, 0, 0, 0, []⟩
  let st := r.1
  let buf := r.2
  if st.failed ≠ 0 then (buf.take st.badIdx, some (Err.invalidByte st.badChar))
  else if s.length % 2 = 1 then (buf.take st.i, some Err.errLength)
  else (buf.take st.i, none)

/-- The branchless nibble-to-character mapping of `Encode`
(`87 + n + (((n - 10) >> 8) & ^uint(38))`, then truncated to a byte). -/
def encByte (n : Nat) : Nat :=
  (87 + n + ((sub64 n 10 >>> 8) &&& (W64 - 39))) % 256

/-- `Encode` from `hex/constant_time.go`: two output bytes per source byte,
high nibble first. -/
def Encode : List Nat → List Nat
  | [] => []
  | v :: rest => encByte (v >>> 4) :: encByte (v &&& 0x0f) :: Encode rest

/-- The claim's description of a lowercase hex digit character:
`'0'`-`'9'` for nibbles below 10 and `'a'`-`'f'` otherwise. -/
def claimNibble (n : Nat) : Nat := if n < 10 then 48 + n else 87 + n

/-- The claim's description of the hex encoder output: for each source byte
the high then the low nibble as lowercase hex characters. -/
def nibblePairs : List Nat → List Nat
  | [] => []
  | v :: rest => claimNibble (v >>> 4) :: claimNibble (v &&& 0x0f) :: nibblePairs rest

end Hex

namespace Base64

open Subtle

/-- `EncodedLen` from the base64 package (`pad = none` models `NoPadding`). -/
def EncodedLen (pad : Option Nat) (n : Nat) : Nat :=
  match pad with
  | none => (n * 8 + 5) / 6
  | some _ => (n + 2) / 3 * 4

/-- `DecodedLen` from the base64 package. -/
def DecodedLen (pad : Option Nat) (n : Nat) : Nat :=
  match pad with
  | none => n * 6 / 8
  | some _ => n / 4 * 3

/-- `stdLookup`: branchless forward lookup for the standard alphabet. -/
def stdLookup (c : Nat) : Nat :=
  let s : Nat := 65
  let s := add64 s ((sub64 (sub64 26 c) 1 >>> 8) &&& 6)
  let s := sub64 s ((sub64 (sub64 52 c) 1 >>> 8) &&& 75)
  let s := sub64 s ((sub64 (sub64 62 c) 1 >>> 8) &&& 15)
  let s := add64 s ((sub64 (sub64 63 c) 1 >>> 8) &&& 3)
  add64 c s % 256

/-- `urlLookup`: branchless forward lookup for the base64url alphabet. -/
def urlLookup (c : Nat) : Nat :=
  let s : Nat := 65
  let s := add64 s ((sub64 (sub64 26 c) 1 >>> 8) &&& 6)
  let s := sub64 s ((sub64 (sub64 52 c) 1 >>> 8) &&& 75)
  let s := sub64 s ((sub64 (sub64 62 c) 1 >>> 8) &&& 13)
  let s := add64 s ((sub64 (sub64 63 c) 1 >>> 8) &&& 49)
  add64 c s % 256

/-- `stdLookupSWAR6`: the 6-source-byte to 8-output-byte SWAR forward
transform for the standard alphabet. -/
def stdLookupSWAR6 (u : Nat) : Nat :=
  let u0 := (u <<< 24) &&& 0xffffff0000000000
  let u1 := (u >>> 32) &&& 0x0000000000ffffff00
  let v := u0 ||| u1
  let c := ((v >>> 26) &&& 0x0000003f0000003f) |||
           ((v >>> 12) &&& 0x00003f0000003f00) |||
           ((v <<< 2) &&& 0x003f0000003f0000) |||
           ((v <<< 16) &&& 0x3f0000003f000000)
  let c0 := add64 c 0x6666666666666666 &&& 0x8080808080808080
  let c0 := sub64 c0 (c0 >>> 7)
  let c0 := c0 &&& 0x0606060606060606
  let c1 := add64 c 0x4c4c4c4c4c4c4c4c &&& 0x8080808080808080
  let c1msb := c1
  let c1 := sub64 c1 (c1 >>> 7)
  let c1 := c1 &&& 0x3b3b3b3b3b3b3b3b
  let c2 := add64 c 0x4242424242424242 &&& 0x8080808080808080
  let c2 := sub64 c2 (c2 >>> 7)
  let c2 := c2 &&& 0x1111111111111111
  let c3 := add64 c 0x4141414141414141 &&& 0x8080808080808080
  let c3 := sub64 c3 (c3 >>> 7)
  let c3 := c3 &&& 0x1d1d1d1d1d1d1d1d
  let s := 0x4141414141414141 ^^^ c0 ^^^ c1 ^^^ c2 ^^^ c3
  add64 c s ^^^ c1msb

/-- `stdLookupSWAR3`: the 3-source-byte to 4-output-byte SWAR forward
transform for the standard alphabet. -/
def stdLookupSWAR3 (u : Nat) : Nat :=
  let c := ((u >>> 26) &&& 0x0000003f) |||
           ((u >>> 12) &&& 0x00003f00) |||
           ((u <<< 2) &&& 0x003f0000) |||
           ((u <<< 16) &&& 0x3f000000)
  let c0 := add32 c 0x66666666 &&& 0x80808080
  let c0 := sub32 c0 (c0 >>> 7)
  let c0 := c0 &&& 0x06060606
  let c1 := add32 c 0x4c4c4c4c &&& 0x80808080
  let c1msb := c1
  let c1 := sub32 c1 (c1 >>> 7)
  let c1 := c1 &&& 0x3b3b3b3b
  let c2 := add32 c 0x42424242 &&& 0x80808080
  let c2 := sub32 c2 (c2 >>> 7)
  let c2 := c2 &&& 0x11111111
  let c3 := add32 c 0x41414141 &&& 0x80808080
  let c3 := sub32 c3 (c3 >>> 7)
  let c3 := c3 &&& 0x1d1d1d1d
  let s := 0x41414141 ^^^ c0 ^^^ c1 ^^^ c2 ^^^ c3
  add32 c s ^^^ c1msb

/-- `urlLookupSWAR6`: the 6-to-8 SWAR forward transform for the base64url
alphabet (constants 13 and 49 on the two highest thresholds). -/
def urlLookupSWAR6 (u : Nat) : Nat :=
  let u0 := (u <<< 24) &&& 0xffffff0000000000
  let u1 := (u >>> 32) &&& 0x0000000000ffffff00
  let v := u0 ||| u1
  let c := ((v >>> 26) &&& 0x0000003f0000003f) |||
           ((v >>> 12) &&& 0x00003f0000003f00) |||
           ((v <<< 2) &&& 0x003f0000003f0000) |||
           ((v <<< 16) &&& 0x3f0000003f000000)
  let c0 := add64 c 0x6666666666666666 &&& 0x8080808080808080
  let c0 := sub64 c0 (c0 >>> 7)
  let c0 := c0 &&& 0x0606060606060606
  let c1 := add64 c 0x4c4c4c4c4c4c4c4c &&& 0x8080808080808080
  let c1msb := c1
  let c1 := sub64 c1 (c1 >>> 7)
  let c1 := c1 &&& 0x3b3b3b3b3b3b3b3b
  let c2 := add64 c 0x4242424242424242 &&& 0x8080808080808080
  let c2 := sub64 c2 (c2 >>> 7)
  let c2 := c2 &&& 0x0d0d0d0d0d0d0d0d
  let c3 := add64 c 0x4141414141414141 &&& 0x8080808080808080
  let c3 := sub64 c3 (c3 >>> 7)
  let c3 := c3 &&& 0x3131313131313131
  let s := 0x4141414141414141 ^^^ c0 ^^^ c1 ^^^ c2 ^^^ c3
  add64 c s ^^^ c1msb

/-- `urlLookupSWAR3` as written in the source: its threshold constants for
the two highest ranges are `0x11…` and `0x1d…`, identical to
`stdLookupSWAR3`. -/
def urlLookupSWAR3 (u : Nat) : Nat :=
  let c := ((u >>> 26) &&& 0x0000003f) |||
           ((u >>> 12) &&& 0x00003f00) |||
           ((u <<< 2) &&& 0x003f0000) |||
           ((u <<< 16) &&& 0x3f000000)
  let c0 := add32 c 0x66666666 &&& 0x80808080
  let c0 := sub32 c0 (c0 >>> 7)
  let c0 := c0 &&& 0x06060606
  let c1 := add32 c 0x4c4c4c4c &&& 0x80808080
  let c1msb := c1
  let c1 := sub32 c1 (c1 >>> 7)
  let c1 := c1 &&& 0x3b3b3b3b
  let c2 := add32 c 0x42424242 &&& 0x80808080
  let c2 := sub32 c2 (c2 >>> 7)
  let c2 := c2 &&& 0x11111111
  let c3 := add32 c 0x41414141 &&& 0x80808080
  let c3 := sub32 c3 (c3 >>> 7)
  let c3 := c3 &&& 0x1d1d1d1d
  let s := 0x41414141 ^^^ c0 ^^^ c1 ^^^ c2 ^^^ c3
  add32 c s ^^^ c1msb

/-- `stdRevLookup`: branchless reverse lookup for the standard alphabet
(0xff for bytes outside the alphabet). -/
def stdRevLookup (c : Nat) : Nat :=
  let s := ((((sub64 64 c) &&& (sub64 c 91)) >>> 8) &&& 191) ^^^
           ((((sub64 96 c) &&& (sub64 c 123)) >>> 8) &&& 185) ^^^
           ((((sub64 47 c) &&& (sub64 c 58)) >>> 8) &&& 4) ^^^
           ((((sub64 42 c) &&& (sub64 c 44)) >>> 8) &&& 19) ^^^
           ((((sub64 46 c) &&& (sub64 c 48)) >>> 8) &&& 16)
  ((add64 s c &&& 0x3f) ||| (((sub64 0 s >>> 8) &&& 0xff) ^^^ 0xff)) % 256

/-- `urlRevLookup` as written in the source: the range computations are
byte-for-byte those of `stdRevLookup` (ranges for `+` and `/`, not `-`
and `_`). -/
def urlRevLookup (c : Nat) : Nat :=
  let s := ((((sub64 64 c) &&& (sub64 c 91)) >>> 8) &&& 191) ^^^
           ((((sub64 96 c) &&& (sub64 c 123)) >>> 8) &&& 185) ^^^
           ((((sub64 47 c) &&& (sub64 c 58)) >>> 8) &&& 4) ^^^
           ((((sub64 42 c) &&& (sub64 c 44)) >>> 8) &&& 19) ^^^
           ((((sub64 46 c) &&& (sub64 c 48)) >>> 8) &&& 16)
  ((add64 s c &&& 0x3f) ||| (((sub64 0 s >>> 8) &&& 0xff) ^^^ 0xff)) % 256

/-- The standard Base64 alphabet, as listed in the repository's test file. -/
def stdTable : List Nat :=
  (List.range 26).map (fun i => 65 + i) ++
  (List.range 26).map (fun i => 97 + i) ++
  (List.range 10).map (fun i => 48 + i) ++ [43, 47]

/-- The base64url alphabet, as listed in the repository's test file. -/
def urlTable : List Nat :=
  (List.range 26).map (fun i => 65 + i) ++
  (List.range 26).map (fun i => 97 + i) ++
  (List.range 10).map (fun i => 48 + i) ++ [45, 95]

/-- `binary.BigEndian.Uint64` on eight byte values. -/
def beUint64 (b0 b1 b2 b3 b4 b5 b6 b7 : Nat) : Nat :=
  (b0 <<< 56) ||| (b1 <<< 48) ||| (b2 <<< 40) ||| (b3 <<< 32) |||
  (b4 <<< 24) ||| (b5 <<< 16) ||| (b6 <<< 8) ||| b7

/-- `binary.LittleEndian.PutUint64`: the eight bytes written. -/
def putUint64LE (w : Nat) : List Nat :=
  [w &&& 0xff, (w >>> 8) &&& 0xff, (w >>> 16) &&& 0xff, (w >>> 24) &&& 0xff,
   (w >>> 32) &&& 0xff, (w >>> 40) &&& 0xff, (w >>> 48) &&& 0xff,
   (w >>> 56) &&& 0xff]

/-- `binary.LittleEndian.PutUint32`: the four bytes written. -/
def putUint32LE (w : Nat) : List Nat :=
  [w &&& 0xff, (w >>> 8) &&& 0xff, (w >>> 16) &&& 0xff, (w >>> 24) &&& 0xff]

/-- The final `switch len(src)` of the encoders: remainder of 2 or 1 source
bytes, scalar lookups, optional padding.  The bytes are listed in
destination order. -/
def encTail (lk : Nat → Nat) (src : List Nat) (pad : Option Nat) : List Nat :=
  match src with
  | [s0, s1] =>
      let v := (s0 <<< 16) ||| (s1 <<< 8)
      [lk ((v >>> 18) &&& 0x3f), lk ((v >>> 12) &&& 0x3f),
       lk ((v >>> 6) &&& 0x3f)] ++
        (match pad with
         | some p => [p % 256]
         | none => [])
  | [s0] =>
      let v := s0 <<< 16
      [lk ((v >>> 18) &&& 0x3f), lk ((v >>> 12) &&& 0x3f)] ++
        (match pad with
         | some p => [p % 256, p % 256]
         | none => [])
  | _ => []

/-- The 3-to-4 bulk encode loop (`for len(src) >= 3`). -/
def encLoop2 (swar3 lk : Nat → Nat) : List Nat → Option Nat → List Nat
  | s0 :: s1 :: s2 :: rest, pad =>
      let v := (s0 <<< 16) ||| (s1 <<< 8) ||| s2
      putUint32LE (swar3 ((v <<< 8) % W32)) ++ encLoop2 swar3 lk rest pad
  | src, pad => encTail lk src pad

/-- The 6-to-8 bulk encode loop (`for len(src) >= 8 && len(dst) >= 8`),
falling through to the 3-to-4 loop. -/
def encLoop1 (swar6 swar3 lk : Nat → Nat) :
    Nat → List Nat → Option Nat → List Nat
  | dstLen, s0 :: s1 :: s2 :: s3 :: s4 :: s5 :: rest, pad =>
      if 2 ≤ rest.length ∧ 8 ≤ dstLen then
        putUint64LE (swar6 (beUint64 s0 s1 s2 s3 s4 s5
          (rest.getD 0 0) (rest.getD 1 0))) ++
          encLoop1 swar6 swar3 lk (dstLen - 8) rest pad
      else encLoop2 swar3 lk (s0 :: s1 :: s2 :: s3 :: s4 :: s5 :: rest) pad
  | _, src, pad => encLoop2 swar3 lk src pad

/-- Common body of `stdEncode`/`urlEncode`, parametrised by the SWAR
transforms and the scalar forward lookup; returns the destination bytes
written, in order. -/
def encodeBody (swar6 swar3 lk : Nat → Nat) (dstLen : Nat) (src : List Nat)
    (pad : Option Nat) : List Nat :=
  if src.length = 0 then [] else encLoop1 swar6 swar3 lk dstLen src pad

/-- `stdEncode` from the source. -/
def stdEncode : Nat → List Nat → Option Nat → List Nat :=
  encodeBody stdLookupSWAR6 stdLookupSWAR3 stdLookup

/-- `urlEncode` from the source. -/
def urlEncode : Nat → List Nat → Option Nat → List Nat :=
  encodeBody urlLookupSWAR6 urlLookupSWAR3 urlLookup

/-- The final `switch len(src)` of the decoders: 3- and 2-character tails
(with the strict-mode trailing-bit check), empty tail, and the corrupt
default.  `none` models a panic from writing past the destination. -/
def decTail (rev : Nat → Nat) (dstLen : Nat) (src out : List Nat)
    (n failed : Nat) (strict : Bool) : Option (Nat × List Nat × Nat) :=
  match src with
  | [s0, s1, s2] =>
      if n + 2 ≤ dstLen then
        let c0 := rev s0
        let c1 := rev s1
        let c2 := rev s2
        let d0 := ((c0 <<< 2) % 256) ||| (c1 >>> 4)
        let d1 := ((c1 <<< 4) % 256) ||| (c2 >>> 2)
        let failed := failed ||| c0 ||| c1 ||| c2
        let failed := if strict
          then failed ||| ((sub64 0 (c2 &&& 0x3) >>> 8) % 256)
          else failed
        some (n + 2, out ++ [d0, d1], failed)
      else none
  | [s0, s1] =>
      if n + 1 ≤ dstLen then
        let c0 := rev s0
        let c1 := rev s1
        let d0 := ((c0 <<< 2) % 256) ||| (c1 >>> 4)
        let failed := failed ||| c0 ||| c1
        let failed := if strict
          then failed ||| ((sub64 0 (c1 &&& 0xf) >>> 8) % 256)
          else failed
        some (n + 1, out ++ [d0], failed)
      else none
  | [] => some (n, out, failed)
  | _ => some (n, out, failed ||| 0xff)

/-- The scalar 4-to-3 decode loop (`for len(src) >= 4`), which does not
check the destination length before writing (`none` models the panic). -/
def decLoop3 (rev : Nat → Nat) (dstLen : Nat) :
    List Nat → List Nat → Nat → Nat → Bool → Option (Nat × List Nat × Nat)
  | s0 :: s1 :: s2 :: s3 :: rest, out, n, failed, strict =>
      if n + 3 ≤ dstLen then
        let c0 := rev s0
        let c1 := rev s1
        let c2 := rev s2
        let c3 := rev s3
        let d0 := ((c0 <<< 2) % 256) ||| (c1 >>> 4)
        let d1 := ((c1 <<< 4) % 256) ||| (c2 >>> 2)
        let d2 := ((c2 <<< 6) % 256) ||| c3
        decLoop3 rev dstLen rest (out ++ [d0, d1, d2]) (n + 3)
          (failed ||| c0 ||| c1 ||| c2 ||| c3) strict
      else none
  | src, out, n, failed, strict => decTail rev dstLen src out n failed strict

/-- The bulk 4-to-3 decode loop (`for len(src) >= 4 && len(dst)-n >= 4`),
falling through to the scalar loop. -/
def decLoop2 (rev : Nat → Nat) (dstLen : Nat) :
    List Nat → List Nat → Nat → Nat → Bool → Option (Nat × List Nat × Nat)
  | s0 :: s1 :: s2 :: s3 :: rest, out, n, failed, strict =>
      if 4 ≤ dstLen - n then
        let c0 := rev s0
        let c1 := rev s1
        let c2 := rev s2
        let c3 := rev s3
        let c := ((c0 <<< 26) % W32) ||| ((c1 <<< 20) % W32) |||
                 ((c2 <<< 14) % W32) ||| ((c3 <<< 8) % W32)
        decLoop2 rev dstLen rest
          (out ++ [(c >>> 24) &&& 0xff, (c >>> 16) &&& 0xff, (c >>> 8) &&& 0xff])
          (n + 3) (failed ||| c0 ||| c1 ||| c2 ||| c3) strict
      else decLoop3 rev dstLen (s0 :: s1 :: s2 :: s3 :: rest) out n failed strict
  | src, out, n, failed, strict => decLoop3 rev dstLen src out n failed strict

/-- The bulk 8-to-6 decode loop (`for len(src) >= 8 && len(dst)-n >= 8`),
falling through to the 4-to-3 loops. -/
def decLoop1 (rev : Nat → Nat) (dstLen : Nat) :
    List Nat → List Nat → Nat → Nat → Bool → Option (Nat × List Nat × Nat)
  | s0 :: s1 :: s2 :: s3 :: s4 :: s5 :: s6 :: s7 :: rest, out, n, failed, strict =>
      if 8 ≤ dstLen - n then
        let c0 := rev s0
        let c1 := rev s1
        let c2 := rev s2
        let c3 := rev s3
        let c4 := rev s4
        let c5 := rev s5
        let c6 := rev s6
        let c7 := rev s7
        let c := ((c0 <<< 58) % W64) ||| ((c1 <<< 52) % W64) |||
                 ((c2 <<< 46) % W64) ||| ((c3 <<< 40) % W64) |||
                 ((c4 <<< 34) % W64) ||| ((c5 <<< 28) % W64) |||
                 ((c6 <<< 22) % W64) ||| ((c7 <<< 16) % W64)
        decLoop1 rev dstLen rest
          (out ++ [(c >>> 56) &&& 0xff, (c >>> 48) &&& 0xff,
                   (c >>> 40) &&& 0xff, (c >>> 32) &&& 0xff,
                   (c >>> 24) &&& 0xff, (c >>> 16) &&& 0xff])
          (n + 6) (failed ||| c0 ||| c1 ||| c2 ||| c3 ||| c4 ||| c5 ||| c6 ||| c7)
          strict
      else decLoop2 rev dstLen (s0 :: s1 :: s2 :: s3 :: s4 :: s5 :: s6 :: s7 :: rest)
        out n failed strict
  | src, out, n, failed, strict => decLoop2 rev dstLen src out n failed strict

/-- The constant-time pad stripping at the top of the decoders
(`t += ConstantTimeByteEq(src[len-1], pad); t += …; src = src[:len-t]`). -/
def padStrip (src : List Nat) (pad : Option Nat) : List Nat :=
  match pad with
  | some p =>
      let t := Subtle.ConstantTimeByteEq (src.getD (src.length - 1) 0) (p % 256) +
               Subtle.ConstantTimeByteEq (src.getD (src.length - 2) 0) (p % 256)
      src.take (src.length - t)
  | none => src

/-- Common body of `stdDecode`/`urlDecode`: length validation mod 4,
constant-time pad stripping, the three loops and the tail.  Returns
`(n, written bytes, corrupt?)`; `none` models a panic from writing past the
destination. -/
def decodeBody (rev : Nat → Nat) (dstLen : Nat) (src : List Nat)
    (pad : Option Nat) (strict : Bool) : Option (Nat × List Nat × Bool) :=
  if src.length = 0 then some (0, [], false)
  else if src.length % 4 = 1 then some (0, [], true)
  else if (src.length % 4 = 2 ∨ src.length % 4 = 3) ∧ pad.isSome then
    some (0, [], true)
  else
    match decLoop1 rev dstLen (padStrip src pad) [] 0 0 strict with
    | none => none
    | some (n, out, failed) => some (n, out, failed &&& 0xff == 0xff)

/-- `stdDecode` from the source. -/
def stdDecode : Nat → List Nat → Option Nat → Bool → Option (Nat × List Nat × Bool) :=
  decodeBody stdRevLookup

/-- `urlDecode` from the source. -/
def urlDecode : Nat → List Nat → Option Nat → Bool → Option (Nat × List Nat × Bool) :=
  decodeBody urlRevLookup

/-- "The returned count matches the written bytes" property of a decode
result (vacuous on panic). -/
def nEqOut {α : Type} : Option (Nat × List Nat × α) → Prop
  | none => True
  | some (n, out, _) => n = out.length

end Base64

namespace Base64

/-- Helper: `decTail` keeps the returned count equal to the number of bytes
written whenever it starts that way. -/
theorem decTail_nEq (rev : Nat → Nat) (dstLen : Nat) (src out : List Nat)
    (n failed : Nat) (strict : Bool) (h : n = out.length) :
    nEqOut (decTail rev dstLen src out n failed strict) := by
  rcases src with _ | ⟨s0, _ | ⟨s1, _ | ⟨s2, _ | ⟨s3, t⟩⟩⟩⟩
  · simpa [decTail, nEqOut] using h
  · simpa [decTail, nEqOut] using h
  · simp only [decTail]
    split
    · simp [nEqOut, h]
    · simp [nEqOut]
  · simp only [decTail]
    split
    · simp [nEqOut, h]
    · simp [nEqOut]
  · simpa [decTail, nEqOut] using h

/-- Helper: the scalar 4-to-3 loop preserves count-equals-written. -/
theorem decLoop3_nEq (rev : Nat → Nat) (dstLen : Nat) :
    ∀ (src out : List Nat) (n failed : Nat) (strict : Bool), n = out.length →
      nEqOut (decLoop3 rev dstLen src out n failed strict)
  | s0 :: s1 :: s2 :: s3 :: rest, out, n, failed, strict, h => by
      simp only [decLoop3]
      split
      · exact decLoop3_nEq rev dstLen rest _ _ _ _ (by simp [h])
      · simp [nEqOut]
  | [], out, n, failed, strict, h => decTail_nEq rev dstLen [] out n failed strict h
  | [s0], out, n, failed, strict, h => decTail_nEq rev dstLen [s0] out n failed strict h
  | [s0, s1], out, n, failed, strict, h =>
      decTail_nEq rev dstLen [s0, s1] out n failed strict h
  | [s0, s1, s2], out, n, failed, strict, h =>
      decTail_nEq rev dstLen [s0, s1, s2] out n failed strict h

/-- Helper: the bulk 4-to-3 loop preserves count-equals-written. -/
theorem decLoop2_nEq (rev : Nat → Nat) (dstLen : Nat) :
    ∀ (src out : List Nat) (n failed : Nat) (strict : Bool), n = out.length →
      nEqOut (decLoop2 rev dstLen src out n failed strict)
  | s0 :: s1 :: s2 :: s3 :: rest, out, n, failed, strict, h => by
      simp only [decLoop2]
      split
      · exact decLoop2_nEq rev dstLen rest _ _ _ _ (by simp [h])
      · exact decLoop3_nEq rev dstLen _ _ _ _ _ h
  | [], out, n, failed, strict, h => decLoop3_nEq rev dstLen [] out n failed strict h
  | [s0], out, n, failed, strict, h => decLoop3_nEq rev dstLen [s0] out n failed strict h
  | [s0, s1], out, n, failed, strict, h =>
      decLoop3_nEq rev dstLen [s0, s1] out n failed strict h
  | [s0, s1, s2], out, n, failed, strict, h =>
      decLoop3_nEq rev dstLen [s0, s1, s2] out n failed strict h

/-- Helper: the bulk 8-to-6 loop preserves count-equals-written. -/
theorem decLoop1_nEq (rev : Nat → Nat) (dstLen : Nat) :
    ∀ (src out : List Nat) (n failed : Nat) (strict : Bool), n = out.length →
      nEqOut (decLoop1 rev dstLen src out n failed strict)
  | s0 :: s1 :: s2 :: s3 :: s4 :: s5 :: s6 :: s7 :: rest, out, n, failed, strict, h => by
      simp only [decLoop1]
      split
      · exact decLoop1_nEq rev dstLen rest _ _ _ _ (by simp [h])
      · exact decLoop2_nEq rev dstLen _ _ _ _ _ h
  | [], out, n, failed, strict, h => decLoop2_nEq rev dstLen [] out n failed strict h
  | [s0], out, n, failed, strict, h => decLoop2_nEq rev dstLen [s0] out n failed strict h
  | [s0, s1], out, n, failed, strict, h =>
      decLoop2_nEq rev dstLen [s0, s1] out n failed strict h
  | [s0, s1, s2], out, n, failed, strict, h =>
      decLoop2_nEq rev dstLen [s0, s1, s2] out n failed strict h
  | [s0, s1, s2, s3], out, n, failed, strict, h =>
      decLoop2_nEq rev dstLen [s0, s1, s2, s3] out n failed strict h
  | [s0, s1, s2, s3, s4], out, n, failed, strict, h =>
      decLoop2_nEq rev dstLen [s0, s1, s2, s3, s4] out n failed strict h
  | [s0, s1, s2, s3, s4, s5], out, n, failed, strict, h =>
      decLoop2_nEq rev dstLen [s0, s1, s2, s3, s4, s5] out n failed strict h
  | [s0, s1, s2, s3, s4, s5, s6], out, n, failed, strict, h =>
      decLoop2_nEq rev dstLen [s0, s1, s2, s3, s4, s5, s6] out n failed strict h

end Base64

/-- Claim C4: for every destination capacity and source, Base64 `Decode`
returns `n` equal to the total number of destination bytes it wrote, even
when the input is invalid and it reports corruption; in particular
`StdDecode` of `"aGVsb?8="` returns `(5, Corrupt)` (with the five bytes
`hel`, `'o'`, `0xff` written). -/
theorem c4_decode_reports_written :
    (∀ (rev : Nat → Nat) (dstLen : Nat) (src : List Nat) (pad : Option Nat)
      (strict : Bool), Base64.nEqOut (Base64.decodeBody rev dstLen src pad strict)) ∧
    Base64.stdDecode (Base64.DecodedLen (some 61) 8) [97, 71, 86, 115, 98, 63, 56, 61]
      (some 61) false = some (5, [104, 101, 108, 111, 255], true) := by
  constructor
  · intro rev dstLen src pad strict
    unfold Base64.decodeBody
    split
    · simp [Base64.nEqOut]
    split
    · simp [Base64.nEqOut]
    split
    · simp [Base64.nEqOut]
    · have h := Base64.decLoop1_nEq rev dstLen (Base64.padStrip src pad) [] 0 0 strict rfl
      rcases hd : Base64.decLoop1 rev dstLen (Base64.padStrip src pad) [] 0 0 strict with
        _ | ⟨n, out, f⟩
      · simp [hd, Base64.nEqOut]
      · rw [hd] at h
        simp only [Base64.nEqOut] at h
        simp [hd, Base64.nEqOut, h]
  · decide

/-- Claim C1 (failing input): encoding the byte string `[0xF8]` with the
padded URL encoding yields `"-A=="`, but URL-decoding that very output
returns `(1, [0xFC], Corrupt)` instead of `([0xF8], ok)`: the source's
`urlRevLookup` rejects `-` and `_`, so `decode(encode(s)) = s` fails for
the URL encodings. -/
theorem c1_url_roundtrip_fails :
    Base64.urlEncode (Base64.EncodedLen (some 61) 1) [248] (some 61) = [45, 65, 61, 61] ∧
    Base64.urlDecode (Base64.DecodedLen (some 61) 4)
      (Base64.urlEncode (Base64.EncodedLen (some 61) 1) [248] (some 61))
      (some 61) false = some (1, [252], true) ∧
    Base64.urlDecode (Base64.DecodedLen (some 61) 4)
      (Base64.urlEncode (Base64.EncodedLen (some 61) 1) [248] (some 61))
      (some 61) false ≠ some (1, [248], false) := by
  refine ⟨by decide, by decide, by decide⟩

/-- Claim C2: the standard reverse lookup is correct for every byte
(the 6-bit index for alphabet characters, `0xff` otherwise, in particular
`+` to 62 and `/` to 63); but the URL reverse lookup as written returns
`0xff` on `-` (45) and `_` (95) and instead maps `+` to 62 and `/` to 63,
contradicting the claim. -/
theorem c2_revLookup :
    ((List.range 256).map Base64.stdRevLookup =
      (List.range 256).map (fun c =>
        if c ∈ Base64.stdTable then Base64.stdTable.findIdx (fun x => x == c)
        else 0xff)) ∧
    Base64.stdRevLookup 43 = 62 ∧ Base64.stdRevLookup 47 = 63 ∧
    Base64.urlRevLookup 45 = 0xff ∧ Base64.urlRevLookup 95 = 0xff ∧
    Base64.urlRevLookup 43 = 62 ∧ Base64.urlRevLookup 47 = 63 := by
  refine ⟨by decide, by decide, by decide, by decide, by decide, by decide, by decide⟩

/-- Claim C3 (counterexample): decoding `"AQ"` with the padded standard
encoding in strict mode does not succeed with byte `0x01`; it returns
`(0, Corrupt)` because a padded input must have length divisible by 4. -/
theorem c3_counterexample :
    Base64.stdDecode (Base64.DecodedLen (some 61) 2) [65, 81] (some 61) true =
      some (0, [], true) ∧
    Base64.stdDecode (Base64.DecodedLen (some 61) 2) [65, 81] (some 61) true ≠
      some (1, [1], false) := by
  exact ⟨by decide, by decide⟩

/-- Claim C3 (amended): decoding `"AA"` with the standard encoding in
strict mode returns Corrupt (as does `"AQ"`, both because the padded input
length is not a multiple of 4), and decoding `"AQ"` with the raw
(unpadded) standard encoding in strict mode succeeds, producing the single
byte `0x01`. -/
theorem c3_amended :
    Base64.stdDecode (Base64.DecodedLen (some 61) 2) [65, 65] (some 61) true =
      some (0, [], true) ∧
    Base64.stdDecode (Base64.DecodedLen (some 61) 2) [65, 81] (some 61) true =
      some (0, [], true) ∧
    Base64.stdDecode (Base64.DecodedLen none 2) [65, 81] none true =
      some (1, [1], false) := by
  exact ⟨by decide, by decide, by decide⟩

/-- Claim C9: `validHexChar c` is true exactly for the bytes `0`-`9`,
`A`-`F` and `a`-`f`: filtering all 256 byte values through the source's
`validHexChar` and through the claim's character ranges gives the same
list. -/
theorem c9_validHexChar :
    (List.range 256).filter Hex.validHexChar =
      (List.range 256).filter Hex.isHexDigit := by
  decide

namespace Base64

/-- Helper: output length of the encoder tail switch. -/
theorem encTail_len (lk : Nat → Nat) (pad : Option Nat) :
    ∀ src : List Nat, src.length ≤ 2 →
      (encTail lk src pad).length = EncodedLen pad src.length := by
  intro src hle
  rcases src with _ | ⟨s0, _ | ⟨s1, t⟩⟩
  · cases pad <;> simp [encTail, EncodedLen]
  · cases pad <;> simp [encTail, EncodedLen]
  · rcases t with _ | ⟨s2, t⟩
    · cases pad <;> simp [encTail, EncodedLen]
    · simp at hle

/-- Helper: `EncodedLen` grows by 4 per 3 source bytes. -/
theorem encodedLen_add_three (pad : Option Nat) (m : Nat) :
    EncodedLen pad (m + 3) = EncodedLen pad m + 4 := by
  cases pad <;> simp only [EncodedLen] <;> omega

/-- Helper: output length of the 3-to-4 encode loop. -/
theorem encLoop2_len (swar3 lk : Nat → Nat) :
    ∀ (src : List Nat) (pad : Option Nat),
      (encLoop2 swar3 lk src pad).length = EncodedLen pad src.length
  | s0 :: s1 :: s2 :: rest, pad => by
      simp only [encLoop2, List.length_append, encLoop2_len swar3 lk rest pad,
        putUint32LE, List.length_cons, List.length_nil]
      have h3 : rest.length + 1 + 1 + 1 = rest.length + 3 := by omega
      rw [h3, encodedLen_add_three]
      omega
  | [], pad => encTail_len lk pad [] (by simp)
  | [s0], pad => encTail_len lk pad [s0] (by simp)
  | [s0, s1], pad => encTail_len lk pad [s0, s1] (by simp)

/-- Helper: `EncodedLen` grows by 8 per 6 source bytes. -/
theorem encodedLen_add_six (pad : Option Nat) (m : Nat) :
    EncodedLen pad (m + 6) = EncodedLen pad m + 8 := by
  cases pad <;> simp only [EncodedLen] <;> omega

/-- Helper: output length of the 6-to-8 encode loop given enough
destination space. -/
theorem encLoop1_len (swar6 swar3 lk : Nat → Nat) :
    ∀ (src : List Nat) (dstLen : Nat) (pad : Option Nat),
      EncodedLen pad src.length ≤ dstLen →
      (encLoop1 swar6 swar3 lk dstLen src pad).length = EncodedLen pad src.length
  | s0 :: s1 :: s2 :: s3 :: s4 :: s5 :: rest, dstLen, pad, hd => by
      simp only [encLoop1]
      split
      · next hc =>
        have hrest : EncodedLen pad rest.length ≤ dstLen - 8 := by
          have h6 : (s0 :: s1 :: s2 :: s3 :: s4 :: s5 :: rest).length =
              rest.length + 6 := by simp
          rw [h6, encodedLen_add_six] at hd
          omega
        simp only [List.length_append,
          encLoop1_len swar6 swar3 lk rest (dstLen - 8) pad hrest, putUint64LE,
          List.length_cons, List.length_nil]
        have h6 : rest.length + 1 + 1 + 1 + 1 + 1 + 1 = rest.length + 6 := by omega
        rw [h6, encodedLen_add_six]
        omega
      · exact encLoop2_len swar3 lk _ pad
  | [], dstLen, pad, hd => encLoop2_len swar3 lk [] pad
  | [s0], dstLen, pad, hd => encLoop2_len swar3 lk [s0] pad
  | [s0, s1], dstLen, pad, hd => encLoop2_len swar3 lk [s0, s1] pad
  | [s0, s1, s2], dstLen, pad, hd => encLoop2_len swar3 lk [s0, s1, s2] pad
  | [s0, s1, s2, s3], dstLen, pad, hd => encLoop2_len swar3 lk [s0, s1, s2, s3] pad
  | [s0, s1, s2, s3, s4], dstLen, pad, hd =>
      encLoop2_len swar3 lk [s0, s1, s2, s3, s4] pad

/-- Helper: output length of the encoder body on an exact-size destination. -/
theorem encodeBody_len (swar6 swar3 lk : Nat → Nat) (src : List Nat)
    (pad : Option Nat) :
    (encodeBody swar6 swar3 lk (EncodedLen pad src.length) src pad).length =
      EncodedLen pad src.length := by
  unfold encodeBody
  split
  · next hz =>
    rw [hz]
    cases pad <;> simp [EncodedLen]
  · exact encLoop1_len swar6 swar3 lk src _ pad le_rfl

end Base64

/-- Claim C7: for every byte string `s`, every pad configuration (so in
particular for each of the four canonical encodings) and a destination of
the declared size, `Encode` writes exactly `EncodedLen (len s)` bytes,
where `EncodedLen n` is `(n+2)/3*4` when padded and `(8n+5)/6` when
unpadded. -/
theorem c7_encode_writes_encodedLen (src : List Nat) (pad : Option Nat) :
    (Base64.stdEncode (Base64.EncodedLen pad src.length) src pad).length =
      Base64.EncodedLen pad src.length ∧
    (Base64.urlEncode (Base64.EncodedLen pad src.length) src pad).length =
      Base64.EncodedLen pad src.length ∧
    Base64.EncodedLen (some 61) src.length = (src.length + 2) / 3 * 4 ∧
    Base64.EncodedLen none src.length = (src.length * 8 + 5) / 6 := by
  exact ⟨Base64.encodeBody_len _ _ _ src pad, Base64.encodeBody_len _ _ _ src pad,
    rfl, rfl⟩

namespace Hex

/-- Helper: on nibbles the branchless mapping of `Encode` produces exactly
the lowercase hex digit characters. -/
theorem encByte_eq_claimNibble : ∀ n < 16, encByte n = claimNibble n := by
  decide

end Hex

/-- Claim C8: for every byte string, hex `Encode` writes, for each source
byte, its high then its low nibble mapped through
`87 + n + (((n - 10) >> 8) & ^38)`, which is `'0'`-`'9'` for nibbles below
10 and `'a'`-`'f'` otherwise; the output (and the returned count
`len(src)*2`) is exactly `2 * len(src)` bytes. -/
theorem c8_hex_encode (src : List Nat) (hb : Subtle.Bytes src) :
    Hex.Encode src = Hex.nibblePairs src ∧
    (Hex.Encode src).length = 2 * src.length := by
  constructor
  · induction src with
    | nil => rfl
    | cons v rest ih =>
        have hv : v < 256 := hb v (List.mem_cons_self v rest)
        have hrest : Subtle.Bytes rest := fun b hbm => hb b (List.mem_cons_of_mem v hbm)
        have hhi : v >>> 4 < 16 := by
          rw [Nat.shiftRight_eq_div_pow]
          omega
        have hlo : v &&& 0x0f < 16 := by
          have := Nat.and_le_right (n := v) (m := 0x0f)
          omega
        simp only [Hex.Encode, Hex.nibblePairs, ih hrest,
          Hex.encByte_eq_claimNibble _ hhi, Hex.encByte_eq_claimNibble _ hlo]
  · induction src with
    | nil => rfl
    | cons v rest ih =>
        have hrest : Subtle.Bytes rest := fun b hbm => hb b (List.mem_cons_of_mem v hbm)
        simp only [Hex.Encode, List.length_cons, ih hrest]
        omega

/-- Witness for C8 at the concrete source `[0xFF, 0x00]`. -/
theorem c8_hex_encode_witness :
    Subtle.Bytes [255, 0] ∧
    (Hex.Encode [255, 0] = Hex.nibblePairs [255, 0] ∧
     (Hex.Encode [255, 0]).length = 2 * [255, 0].length) :=
  ⟨by unfold Subtle.Bytes; decide, c8_hex_encode [255, 0] (by unfold Subtle.Bytes; decide)⟩

namespace Subtle

/-- Helper: the comparison loop is absorbed once `gt = 1` has been decided
(with `neq = 0`): the remaining bytes cannot change the answer 0. -/
theorem beLoop_gt : ∀ l : List (Nat × Nat), beLessOrEqLoop l 0 1 = 0
  | [] => rfl
  | (a, b) :: rest => by
      by_cases hab : a ≤ b <;>
        simp [beLessOrEqLoop, ConstantTimeSelect, ConstantTimeByteGreater,
          ConstantTimeByteLessOrEq, ConstantTimeLessOrEq, ConstantTimeByteEq,
          hab, beLoop_gt rest]

/-- Helper: the comparison loop is absorbed once `neq = 1` has been decided
(with `gt = 0`): the remaining bytes cannot change the answer 1. -/
theorem beLoop_lt : ∀ l : List (Nat × Nat), beLessOrEqLoop l 1 0 = 1
  | [] => rfl
  | (a, b) :: rest => by
      by_cases hab : a = b <;>
        simp [beLessOrEqLoop, ConstantTimeSelect, ConstantTimeByteGreater,
          ConstantTimeByteLessOrEq, ConstantTimeLessOrEq, ConstantTimeByteEq,
          hab, beLoop_lt rest]

/-- Helper: a byte string is smaller than the power bounding its length. -/
theorem beNat_lt_pow : ∀ l : List Nat, Bytes l → beNat l < 256 ^ l.length
  | [] => fun _ => by simp [beNat]
  | b :: rest => fun hb => by
      have hb0 : b < 256 := hb b (List.mem_cons_self b rest)
      have hr := beNat_lt_pow rest (fun c hc => hb c (List.mem_cons_of_mem b hc))
      simp only [beNat, List.length_cons]
      calc b * 256 ^ rest.length + beNat rest
          < b * 256 ^ rest.length + 256 ^ rest.length := Nat.add_lt_add_left hr _
        _ = (b + 1) * 256 ^ rest.length := by ring
        _ ≤ 256 * 256 ^ rest.length := Nat.mul_le_mul_right _ (by omega)
        _ = 256 ^ (rest.length + 1) := by rw [pow_succ]; ring

/-- Helper: a smaller leading byte decides the big-endian comparison. -/
theorem beNat_lt_of_head_lt (a b : Nat) (xs ys : List Nat)
    (hlen : xs.length = ys.length) (hx : Bytes xs) (hab : a < b) :
    beNat (a :: xs) < beNat (b :: ys) := by
  have hxs := beNat_lt_pow xs hx
  simp only [beNat]
  calc a * 256 ^ xs.length + beNat xs
      < a * 256 ^ xs.length + 256 ^ xs.length := Nat.add_lt_add_left hxs _
    _ = (a + 1) * 256 ^ xs.length := by ring
    _ ≤ b * 256 ^ xs.length := Nat.mul_le_mul_right _ (by omega)
    _ ≤ b * 256 ^ ys.length + beNat ys := by
        rw [hlen]
        exact Nat.le_add_right _ _

/-- Helper: the comparison loop computes the big-endian order on
equal-length byte strings. -/
theorem beLoop_spec : ∀ x y : List Nat, x.length = y.length →
    Bytes x → Bytes y →
    beLessOrEqLoop (x.zip y) 0 0 = if beNat x ≤ beNat y then 1 else 0
  | [], [], _, _, _ => rfl
  | [], b :: ys, hlen, _, _ => by simp at hlen
  | a :: xs, [], hlen, _, _ => by simp at hlen
  | a :: xs, b :: ys, hlen, hx, hy => by
      have hlen' : xs.length = ys.length := by simpa using hlen
      have hxs : Bytes xs := fun c hc => hx c (List.mem_cons_of_mem a hc)
      have hys : Bytes ys := fun c hc => hy c (List.mem_cons_of_mem b hc)
      rcases lt_trichotomy a b with hab | hab | hab
      · have hle : beNat (a :: xs) ≤ beNat (b :: ys) :=
          le_of_lt (beNat_lt_of_head_lt a b xs ys hlen' hxs hab)
        rw [if_pos hle]
        simp only [List.zip_cons_cons, beLessOrEqLoop]
        simp [ConstantTimeSelect, ConstantTimeByteGreater,
          ConstantTimeByteLessOrEq, ConstantTimeLessOrEq, ConstantTimeByteEq,
          hab.le, hab.ne, beLoop_lt]
      · subst hab
        have hiff : (beNat (a :: xs) ≤ beNat (a :: ys)) ↔ (beNat xs ≤ beNat ys) := by
          simp only [beNat, hlen', Nat.add_le_add_iff_left]
        rw [if_congr hiff rfl rfl]
        simp only [List.zip_cons_cons, beLessOrEqLoop]
        simp only [ConstantTimeSelect, ConstantTimeByteGreater,
          ConstantTimeByteLessOrEq, ConstantTimeLessOrEq, ConstantTimeByteEq,
          le_refl, if_pos, if_neg]
        have hrec := beLoop_spec xs ys hlen' hxs hys
        simpa [List.zip] using hrec
      · have hgt : beNat (b :: ys) < beNat (a :: xs) :=
          beNat_lt_of_head_lt b a ys xs hlen'.symm hys hab
        rw [if_neg (not_le.mpr hgt)]
        simp only [List.zip_cons_cons, beLessOrEqLoop]
        simp [ConstantTimeSelect, ConstantTimeByteGreater,
          ConstantTimeByteLessOrEq, ConstantTimeLessOrEq, ConstantTimeByteEq,
          not_le.mpr hab, hab.ne', beLoop_gt]

end Subtle

/-- Claim C6: on equal-length byte strings, `ConstantTimeBigEndianLessOrEq`
returns 1 exactly when the first string, read as a big-endian integer, is
less than or equal to the second, and 0 otherwise; on strings of different
lengths it panics (modelled as `none`). -/
theorem c6_bigEndianLessOrEq :
    (∀ x y : List Nat, x.length = y.length → Subtle.Bytes x → Subtle.Bytes y →
      Subtle.ConstantTimeBigEndianLessOrEq x y =
        some (if Subtle.beNat x ≤ Subtle.beNat y then 1 else 0)) ∧
    (∀ x y : List Nat, x.length ≠ y.length →
      Subtle.ConstantTimeBigEndianLessOrEq x y = none) := by
  constructor
  · intro x y hlen hx hy
    unfold Subtle.ConstantTimeBigEndianLessOrEq
    rw [if_pos hlen, Subtle.beLoop_spec x y hlen hx hy]
  · intro x y hlen
    unfold Subtle.ConstantTimeBigEndianLessOrEq
    rw [if_neg hlen]

/-- Witness for C6 on concrete inputs: `[1,2] <= [1,3]` gives 1,
`[2,0] <= [1,255]` gives 0, and mismatched lengths give the panic. -/
theorem c6_bigEndianLessOrEq_witness :
    Subtle.ConstantTimeBigEndianLessOrEq [1, 2] [1, 3] = some 1 ∧
    Subtle.ConstantTimeBigEndianLessOrEq [2, 0] [1, 255] = some 0 ∧
    Subtle.ConstantTimeBigEndianLessOrEq [1] [] = none := by
  refine ⟨?_, ?_, c6_bigEndianLessOrEq.2 [1] [] (by decide)⟩
  · rw [c6_bigEndianLessOrEq.1 [1, 2] [1, 3] rfl
      (by unfold Subtle.Bytes; decide) (by unfold Subtle.Bytes; decide)]
    decide
  · rw [c6_bigEndianLessOrEq.1 [2, 0] [1, 255] rfl
      (by unfold Subtle.Bytes; decide) (by unfold Subtle.Bytes; decide)]
    decide

namespace Hex

/-- Helper: `hexBad` is 0 or 1. -/
theorem hexBad_cases (c : Nat) : hexBad c = 0 ∨ hexBad c = 1 := by
  simp only [hexBad, Subtle.ConstantTimeByteEq]
  split <;> simp

/-- Helper: on bytes, the branchless `bad` computation of the decode loop
agrees with the hex-digit ranges. -/
theorem hexBad_eq_isHexDigit : ∀ c < 256, hexBad c = if isHexDigit c then 0 else 1 := by
  decide

/-- Helper: once `failed = 1`, a loop step keeps `failed`, `badIdx` and
`badChar` unchanged. -/
theorem step_keeps_failure (j c : Nat) (st : St) (h : st.failed = 1) :
    (step j c st).failed = 1 ∧ (step j c st).badIdx = st.badIdx ∧
    (step j c st).badChar = st.badChar := by
  unfold step
  rcases hexBad_cases c with hb | hb <;>
    split <;> simp [Subtle.ConstantTimeSelect, h, hb]

/-- Helper: once `failed = 1`, the whole remaining loop keeps `failed`,
`badIdx` and `badChar` unchanged. -/
theorem loop_keeps_failure : ∀ (src : List Nat) (j : Nat) (st : St),
    st.failed = 1 →
    (loop src j st).failed = 1 ∧ (loop src j st).badIdx = st.badIdx ∧
    (loop src j st).badChar = st.badChar
  | [], _, st, h => ⟨h, rfl, rfl⟩
  | c :: rest, j, st, h => by
      obtain ⟨h1, h2, h3⟩ := step_keeps_failure j c st h
      obtain ⟨g1, g2, g3⟩ := loop_keeps_failure rest (j + 1) (step j c st) h1
      simp only [loop]
      exact ⟨g1, by rw [g2, h2], by rw [g3, h3]⟩

/-- Helper: a step on a valid hex character keeps the failure state clear
and leaves `badIdx`/`badChar` alone; `i` advances on odd source indices. -/
theorem step_ok (j c : Nat) (st : St) (h0 : st.failed = 0) (hv : hexBad c = 0) :
    (step j c st).failed = 0 ∧ (step j c st).badIdx = st.badIdx ∧
    (step j c st).badChar = st.badChar ∧
    (step j c st).i = st.i + (if j % 2 = 0 then 0 else 1) := by
  unfold step
  split <;> simp_all [Subtle.ConstantTimeSelect]

/-- Helper: a step on an invalid character with the failure state clear
records the current destination index and the offending byte. -/
theorem step_records_bad (j c : Nat) (st : St) (h0 : st.failed = 0)
    (hv : hexBad c = 1) :
    (step j c st).failed = 1 ∧ (step j c st).badIdx = st.i ∧
    (step j c st).badChar = c := by
  unfold step
  split <;> simp_all [Subtle.ConstantTimeSelect]

/-- Helper: full characterisation of the decode loop from an unfailed
state: if the remaining source has an invalid character at (relative)
index `k`, the loop ends failed with `badIdx` the destination index at
that character and `badChar` the character; otherwise it ends unfailed
with `i` advanced by one per completed character pair. -/
theorem loop_spec : ∀ (src : List Nat) (j : Nat) (st : St),
    Subtle.Bytes src → st.failed = 0 →
    (match firstNonHex src with
     | some k =>
         (loop src j st).failed = 1 ∧
         (loop src j st).badIdx = st.i + (j % 2 + k) / 2 ∧
         (loop src j st).badChar = src.getD k 0
     | none =>
         (loop src j st).failed = 0 ∧
         (loop src j st).i = st.i + (j % 2 + src.length) / 2 ∧
         (loop src j st).badIdx = st.badIdx ∧
         (loop src j st).badChar = st.badChar)
  | [], j, st, _, h0 =>
      ⟨h0, by simp only [loop, List.length_nil]; omega, rfl, rfl⟩
  | c :: rest, j, st, hb, h0 => by
      have hc : c < 256 := hb c (List.mem_cons_self c rest)
      have hrest : Subtle.Bytes rest := fun b hm => hb b (List.mem_cons_of_mem c hm)
      have hlp : loop (c :: rest) j st = loop rest (j + 1) (step j c st) := rfl
      by_cases hd : isHexDigit c
      · -- valid character: recurse
        obtain ⟨h1, h2, h3, h4⟩ := step_ok j c st h0
          (by rw [hexBad_eq_isHexDigit c hc, if_pos hd])
        have ih := loop_spec rest (j + 1) (step j c st) hrest h1
        have hfx : firstNonHex (c :: rest) = (firstNonHex rest).map (· + 1) := by
          simp [firstNonHex, hd]
        rw [hfx, hlp]
        rcases hk : firstNonHex rest with _ | k <;> rw [hk] at ih
        · -- no invalid character anywhere
          simp only [Option.map_none']
          refine ⟨ih.1, ?_, by rw [ih.2.2.1, h2], by rw [ih.2.2.2, h3]⟩
          rw [ih.2.1, h4]
          have hj : j % 2 = 0 ∨ j % 2 = 1 := by omega
          have hj1 : (j + 1) % 2 = 1 - j % 2 := by omega
          rcases hj with hj | hj <;> simp [hj, hj1] <;> omega
        · -- first invalid character in `rest` at index k
          simp only [Option.map_some']
          refine ⟨ih.1, ?_, by rw [ih.2.2, List.getD_cons_succ]⟩
          rw [ih.2.1, h4]
          have hj : j % 2 = 0 ∨ j % 2 = 1 := by omega
          have hj1 : (j + 1) % 2 = 1 - j % 2 := by omega
          rcases hj with hj | hj <;> simp [hj, hj1] <;> omega
      · -- invalid character at the head
        obtain ⟨h1, h2, h3⟩ := step_records_bad j c st h0
          (by rw [hexBad_eq_isHexDigit c hc, if_neg hd])
        obtain ⟨g1, g2, g3⟩ := loop_keeps_failure rest (j + 1) (step j c st) h1
        have hfx : firstNonHex (c :: rest) = some 0 := by
          simp [firstNonHex, hd]
        rw [hfx, hlp]
        refine ⟨g1, ?_, by rw [g3, h3, List.getD_cons_zero]⟩
        rw [g2, h2]
        omega

end Hex

/-- Claim C5: hex `Decode` gives invalid-character errors precedence over
length errors: if the source contains a byte that is not a hex digit, it
returns `(k/2, InvalidByte c)` where `k` is the index of the first such
byte (so `k/2` is the destination index at that point) and `c` is that
byte; otherwise it returns `(len/2, Length)` for odd source lengths and
`(len/2, ok)` for even ones. -/
theorem c5_hex_decode_error_precedence (src : List Nat) (hb : Subtle.Bytes src) :
    match Hex.firstNonHex src with
    | some k =>
        (Hex.Decode src).n = k / 2 ∧
        (Hex.Decode src).err = some (Hex.Err.invalidByte (src.getD k 0))
    | none =>
        (Hex.Decode src).n = src.length / 2 ∧
        (Hex.Decode src).err =
          (if src.length % 2 = 1 then some Hex.Err.errLength else none) := by
  have h := Hex.loop_spec src 0 ⟨0, 0, 0, 0, 0, []⟩ hb rfl
  rcases hk : Hex.firstNonHex src with _ | k <;> rw [hk] at h
  · obtain ⟨h1, h2, h3, h4⟩ := h
    unfold Hex.Decode
    rw [if_neg (by rw [h1]; exact fun hf => hf rfl)]
    by_cases hodd : src.length % 2 = 1
    · rw [if_pos hodd, if_pos hodd]
      dsimp only
      refine ⟨?_, rfl⟩
      rw [h2]
      show 0 + (0 % 2 + src.length) / 2 = src.length / 2
      omega
    · rw [if_neg hodd, if_neg hodd]
      dsimp only
      refine ⟨?_, rfl⟩
      rw [h2]
      show 0 + (0 % 2 + src.length) / 2 = src.length / 2
      omega
  · obtain ⟨h1, h2, h3⟩ := h
    unfold Hex.Decode
    rw [if_pos (by rw [h1]; omega)]
    dsimp only
    refine ⟨?_, by rw [h3]⟩
    rw [h2]
    show 0 + (0 % 2 + k) / 2 = k / 2
    omega

/-- Witness for C5 at the concrete source `"0?ab"` (`[48, 63, 97, 98]`):
the invalid byte `'?'` at source index 1 yields `(0, InvalidByte 63)`. -/
theorem c5_hex_decode_error_precedence_witness :
    Subtle.Bytes [48, 63, 97, 98] ∧
    (match Hex.firstNonHex [48, 63, 97, 98] with
     | some k =>
         (Hex.Decode [48, 63, 97, 98]).n = k / 2 ∧
         (Hex.Decode [48, 63, 97, 98]).err =
           some (Hex.Err.invalidByte ([48, 63, 97, 98].getD k 0))
     | none =>
         (Hex.Decode [48, 63, 97, 98]).n = [48, 63, 97, 98].length / 2 ∧
         (Hex.Decode [48, 63, 97, 98]).err =
           (if [48, 63, 97, 98].length % 2 = 1 then some Hex.Err.errLength
            else none)) :=
  ⟨by unfold Subtle.Bytes; decide,
   c5_hex_decode_error_precedence [48, 63, 97, 98] (by unfold Subtle.Bytes; decide)⟩

namespace Hex

/-- Helper: on even source indices a loop step leaves the destination
(and its index) untouched. -/
theorem step_even (j c : Nat) (st : St) (hj : j % 2 = 0) :
    (step j c st).out = st.out ∧ (step j c st).i = st.i ∧
    (step j c st).acc = (hexVal c * 16) % 256 := by
  simp [step, hj]

/-- Helper: on odd source indices a loop step writes one byte (the pending
accumulator combined with the current value) and advances the destination
index. -/
theorem step_odd (j c : Nat) (st : St) (hj : ¬j % 2 = 0) :
    (step j c st).out = st.out ++ [st.acc ||| hexVal c] ∧
    (step j c st).i = st.i + 1 ∧ (step j c st).acc = st.acc := by
  simp [step, hj]

/-- Helper: a step never moves `badIdx` above the destination index. -/
theorem step_badIdx_le (j c : Nat) (st : St) (h : st.badIdx ≤ st.i) :
    (step j c st).badIdx ≤ (step j c st).i := by
  unfold step
  split <;> simp only [Subtle.ConstantTimeSelect] <;> split_ifs <;> omega

/-- Helper: the loop never moves `badIdx` above the destination index. -/
theorem loop_badIdx_le : ∀ (src : List Nat) (j : Nat) (st : St),
    st.badIdx ≤ st.i → (loop src j st).badIdx ≤ (loop src j st).i
  | [], _, _, h => h
  | c :: rest, j, st, h =>
      loop_badIdx_le rest (j + 1) (step j c st) (step_badIdx_le j c st h)

/-- Helper: the loop writes exactly as many bytes as its final `i`. -/
theorem loop_out_len : ∀ (src : List Nat) (j : Nat) (st : St),
    st.out.length = st.i → (loop src j st).out.length = (loop src j st).i
  | [], _, _, h => h
  | c :: rest, j, st, h => by
      by_cases hj : j % 2 = 0
      · obtain ⟨ho, hi, _⟩ := step_even j c st hj
        exact loop_out_len rest (j + 1) (step j c st) (by rw [ho, hi, h])
      · obtain ⟨ho, hi, _⟩ := step_odd j c st hj
        exact loop_out_len rest (j + 1) (step j c st) (by rw [ho, hi]; simp [h])

/-- Helper: setting the element right after a prefix. -/
theorem set_append_len (l₁ : List Nat) (l₂ : List Nat) (v : Nat) :
    (l₁ ++ l₂).set l₁.length v = l₁ ++ l₂.set 0 v := by
  induction l₁ with
  | nil => rfl
  | cons a t ih => simp [List.length_cons, ih]

/-- Helper: `set_append_len` with the index given as any term equal to the
prefix length. -/
theorem set_append_len_eq (l₁ l₂ : List Nat) (v n : Nat) (h : n = l₁.length) :
    (l₁ ++ l₂).set n v = l₁ ++ l₂.set 0 v := by
  rw [h, set_append_len]

/-- Helper: simulation of the in-place decode loop by the fresh-buffer
loop.  If the buffer is the already-written prefix followed by the
untouched remainder of the original source, one in-place step reads the
same byte the fresh loop reads, and the invariant persists: the decoder's
write index never catches up with its read index. -/
theorem loopIP_sim (orig : List Nat) : ∀ (fuel j : Nat) (st : St),
    orig.length ≤ j + fuel → st.i ≤ j → st.i ≤ orig.length →
    st.out.length = st.i →
    loopIP (st.out ++ orig.drop st.i) j st =
      (loop (orig.drop j) j st,
       (loop (orig.drop j) j st).out ++ orig.drop ((loop (orig.drop j) j st).i)) := by
  intro fuel
  induction fuel with
  | zero =>
      intro j st hfuel hij hilen hout
      have hbuf : (st.out ++ orig.drop st.i).length = orig.length := by
        simp only [List.length_append, List.length_drop, hout]
        omega
      rw [List.drop_eq_nil_of_le (by omega : orig.length ≤ j)]
      unfold loopIP
      rw [dif_neg (by rw [hbuf]; omega)]
      rfl
  | succ fuel ih =>
      intro j st hfuel hij hilen hout
      have hbuf : (st.out ++ orig.drop st.i).length = orig.length := by
        simp only [List.length_append, List.length_drop, hout]
        omega
      by_cases hjl : j < orig.length
      · have hc : (st.out ++ orig.drop st.i).getD j 0 = orig.getD j 0 := by
          rw [List.getD_append_right _ _ _ _ (by omega : st.out.length ≤ j), hout,
            List.getD_eq_getElem?_getD, List.getD_eq_getElem?_getD,
            List.getElem?_drop, show st.i + (j - st.i) = j from by omega]
        have hdrop : orig.drop j = orig.getD j 0 :: orig.drop (j + 1) := by
          rw [List.drop_eq_getElem_cons hjl, List.getD_eq_getElem _ _ hjl]
        conv_lhs => rw [loopIP]
        rw [dif_pos (by rw [hbuf]; exact hjl), hc, hdrop]
        show _ = (loop (orig.drop (j + 1)) (j + 1) (step j (orig.getD j 0) st),
          (loop (orig.drop (j + 1)) (j + 1) (step j (orig.getD j 0) st)).out ++
            orig.drop ((loop (orig.drop (j + 1)) (j + 1)
              (step j (orig.getD j 0) st)).i))
        by_cases hj2 : j % 2 = 0
        · obtain ⟨ho, hi, _⟩ := step_even j (orig.getD j 0) st hj2
          rw [if_pos hj2]
          have := ih (j + 1) (step j (orig.getD j 0) st) (by omega)
            (by omega) (by omega) (by rw [ho, hi, hout])
          rw [ho, hi] at this
          exact this
        · obtain ⟨ho, hi, _⟩ := step_odd j (orig.getD j 0) st hj2
          rw [if_neg hj2]
          have hset : (st.out ++ orig.drop st.i).set st.i
              (st.acc ||| hexVal (orig.getD j 0)) =
              (step j (orig.getD j 0) st).out ++
                orig.drop ((step j (orig.getD j 0) st).i) := by
            rw [set_append_len_eq st.out (orig.drop st.i) _ st.i hout.symm, ho, hi,
              List.drop_eq_getElem_cons (by omega : st.i < orig.length),
              List.set_cons_zero, List.append_assoc]
            rfl
          rw [hset]
          exact ih (j + 1) (step j (orig.getD j 0) st) (by omega)
            (by omega) (by omega) (by rw [ho, hi]; simp [hout])
      · have hdropj : orig.drop j = [] := List.drop_eq_nil_of_le (by omega)
        rw [hdropj]
        unfold loopIP
        rw [dif_neg (by rw [hbuf]; omega)]
        rfl

end Hex

/-- Claim C10: hex `DecodeString`, which decodes in place by passing the
string's buffer as both source and destination of `Decode`, returns the
same bytes and the same error as decoding into a fresh, separate
destination buffer: the in-place run's final state equals the fresh run's,
and the first `n` buffer bytes equal the first `n` freshly written bytes
(aliasing is sound because the write index never exceeds the read index). -/
theorem c10_decodeString_inplace (s : List Nat) :
    Hex.DecodeString s =
      ((Hex.Decode s).out.take (Hex.Decode s).n, (Hex.Decode s).err) := by
  have hsim := Hex.loopIP_sim s s.length 0 ⟨0, 0, 0, 0, 0, []⟩
    (by omega) (Nat.le_refl 0) (Nat.zero_le _) rfl
  simp only [List.nil_append, List.drop_zero] at hsim
  have hlen := Hex.loop_out_len s 0 ⟨0, 0, 0, 0, 0, []⟩ rfl
  have hbad := Hex.loop_badIdx_le s 0 ⟨0, 0, 0, 0, 0, []⟩ (Nat.le_refl 0)
  unfold Hex.DecodeString Hex.Decode
  rw [hsim]
  dsimp only
  split
  · rw [List.take_append_of_le_length (by omega)]
  · split
    · rw [List.take_append_of_le_length (by omega)]
    · rw [List.take_append_of_le_length (by omega)]
